import Mathlib

/-!
Shallow embedding of `code/model_GARRec.py` (class `GARRec`).

Tensors of floats are modelled as lists of rationals; a 2-D tensor is a
list of rows.  The transcendental primitives of the tensor backend
(`log`, `exp`, `sqrt`) are abstracted into a `Backend` record of rational
functions, since the structural claims under verification do not depend
on their values.  Exact rational arithmetic replaces floating point;
every returned value is a finite rational by construction.  Fallible
tensor operations (indexing) return `Option`.
-/

/-- A 1-D tensor of floats. -/
abbrev QVec := List ℚ

/-- A 2-D tensor of floats, as a list of rows. -/
abbrev QMat := List (List ℚ)

/-- The tensor backend's transcendental primitives, abstracted. -/
structure Backend where
  log : ℚ → ℚ
  exp : ℚ → ℚ
  sqrt : ℚ → ℚ

/-- Dot product of two vectors (`torch` row-by-row product summed). -/
def dot (u v : QVec) : ℚ := (List.zipWith (fun a b => a * b) u v).sum

/-- Sum of squares of the entries of a vector. -/
def sumsq (r : QVec) : ℚ := (r.map (fun x => x * x)).sum

/-- The `eps` default of `F.normalize` (1e-12). -/
def feps : ℚ := 1 / 1000000000000

/-- The maximum of two rationals, written executably so the kernel can
evaluate it (semantically identical to `max`). -/
def qmax (a c : ℚ) : ℚ := if a ≤ c then c else a

/-- `torch` indexing of a 2-D tensor by one integer index: a negative
index wraps around (adds the length) when it is `≥ -len`; an index
outside `[-len, len)` is an index error (`none`).  Inside the guarded
branches the row is fetched with `getD`, which there equals the actual
row. -/
def tIndex (m : QMat) (i : ℤ) : Option QVec :=
  if 0 ≤ i ∧ i < (m.length : ℤ) then some (m.getD i.toNat [])
  else if -(m.length : ℤ) ≤ i ∧ i < 0 then some (m.getD (i + (m.length : ℤ)).toNat [])
  else none

/-- Fancy indexing `m[ids]` of a 2-D tensor by a 1-D integer tensor:
row-gather, failing if any index fails. -/
def gather (m : QMat) : List ℤ → Option QMat
  | [] => some []
  | i :: rest =>
      (tIndex m i).bind fun r => (gather m rest).bind fun rs => some (r :: rs)

/-- `t[:, 0]` on a 2-D integer tensor: the first entry of every row;
fails if a row is empty. -/
def col0 : List (List ℤ) → Option (List ℤ)
  | [] => some []
  | r :: rest =>
      r.head?.bind fun x => (col0 rest).bind fun xs => some (x :: xs)

/-- `nn.Linear` applied to one input vector: output `j` is
`dot(W[j], x) + bias[j]`. -/
def linear (W : QMat) (bias : QVec) (x : QVec) : QVec :=
  List.zipWith (fun row bi => dot row x + bi) W bias

/-- `nn.LeakyReLU(0.2)` on a scalar. -/
def leakyRelu (x : ℚ) : ℚ := if 0 ≤ x then x else (1 / 5) * x

/-- `nn.Sigmoid` on a scalar, via the backend's `exp`. -/
def sigmoid (b : Backend) (x : ℚ) : ℚ := 1 / (1 + b.exp (-x))

/-- Weights of the generator
`Sequential(Linear(content_dim, 256), LeakyReLU(0.2), Linear(256, dim_E))`. -/
structure GenW where
  W1 : QMat
  b1 : QVec
  W2 : QMat
  b2 : QVec
  deriving DecidableEq

/-- Weights of the discriminator
`Sequential(Linear(dim_E*2, 256), LeakyReLU(0.2), Linear(256, 1), Sigmoid())`. -/
structure DiscW where
  W1 : QMat
  b1 : QVec
  W2 : QMat
  b2 : QVec
  deriving DecidableEq

/-- The generator network applied to one content-feature row. -/
def genApply (g : GenW) (x : QVec) : QVec :=
  linear g.W2 g.b2 ((linear g.W1 g.b1 x).map leakyRelu)

/-- The generator network applied row-wise to a whole feature matrix
(`self.generator(self.content_feat)`). -/
def genAll (g : GenW) (cf : QMat) : QMat := cf.map (genApply g)

/-- The discriminator network applied to one concatenated pair vector;
the output is a length-1 vector (one probability). -/
def discApply (b : Backend) (d : DiscW) (x : QVec) : QVec :=
  (linear d.W2 d.b2 ((linear d.W1 d.b1 x).map leakyRelu)).map (sigmoid b)

/-- `torch`'s BCE clamps the log at -100. -/
def logc (b : Backend) (x : ℚ) : ℚ := qmax (b.log x) (-100)

/-- `F.binary_cross_entropy(input, t * ones_like(input))` with default
mean reduction: the mean over all entries of
`-(t * log x + (1 - t) * log (1 - x))`. -/
def bceMean (b : Backend) (input : QMat) (t : ℚ) : ℚ :=
  let xs := input.flatten
  (xs.map (fun x => -(t * logc b x + (1 - t) * logc b (1 - x)))).sum / (xs.length : ℚ)

/-- `torch.norm(m, p=2)` of a 2-D tensor: the square root of the sum of
squares over the entire matrix (aggregate norm, not per-row). -/
def tnorm (b : Backend) (m : QMat) : ℚ := b.sqrt ((m.map sumsq).sum)

/-- `F.normalize(·, dim=1)` on one row: divide by `max(l2norm, eps)`. -/
def normalizeRow (b : Backend) (r : QVec) : QVec :=
  r.map (fun x => x / qmax (b.sqrt (sumsq r)) feps)

/-- `F.normalize(m, dim=1)`: row-wise L2 normalization. -/
def normalizeMat (b : Backend) (m : QMat) : QMat := m.map (normalizeRow b)

/-- `torch.cat(mats, dim=1)`: concatenate matrices along the feature
axis (the construction contract guarantees equal row counts). -/
def hcatAll : List QMat → QMat
  | [] => []
  | [m] => m
  | m :: rest => List.zipWith (fun r s => r ++ s) m (hcatAll rest)

/-- The model state of `GARRec.__init__`: configuration plus current
weights.  The weights (embedding table, generator, discriminator) are
mutated only by the external optimizer, so they appear as plain fields
quantified over in the theorems. -/
structure GARRec where
  num_user : ℕ
  num_item : ℕ
  reg_weight : ℚ
  dim_E : ℕ
  temp_value : ℚ
  num_neg : ℕ
  contrastive : ℚ
  num_sample : ℕ
  warm_item : List ℕ
  cold_item : List ℕ
  emb_id : List ℕ
  feat_id : List ℤ
  id_embedding : QMat
  v_feat : Option QMat
  a_feat : Option QMat
  t_feat : Option QMat
  content_feat : Option QMat
  generator : Option GenW
  discriminator : DiscW
  result : QMat

/-- `GARRec.__init__`.  The Xavier-normal random draw for the embedding
table and the `nn.Linear` weight initializations are external
randomness, passed in as `init_embedding`, `gw`, `dw`. -/
def GARRec.init (b : Backend) (warm_item cold_item : List ℕ) (num_user num_item : ℕ)
    (reg_weight : ℚ) (dim_E : ℕ) (v_feat a_feat t_feat : Option QMat)
    (temp_value : ℚ) (num_neg : ℕ) (contrastive : ℚ) (num_sample : ℕ)
    (init_embedding : QMat) (gw : GenW) (dw : DiscW) : GARRec :=
  let nv := v_feat.map (normalizeMat b)
  let na := a_feat.map (normalizeMat b)
  let nt := t_feat.map (normalizeMat b)
  let content_list := nv.toList ++ na.toList ++ nt.toList
  { num_user := num_user
    num_item := num_item
    reg_weight := reg_weight
    dim_E := dim_E
    temp_value := temp_value
    num_neg := num_neg
    contrastive := contrastive
    num_sample := num_sample
    warm_item := warm_item
    cold_item := cold_item
    emb_id := List.range num_user ++ warm_item
    feat_id := cold_item.map (fun i => (i : ℤ) - (num_user : ℤ))
    id_embedding := init_embedding
    v_feat := nv
    a_feat := na
    t_feat := nt
    content_feat := if 0 < content_list.length then some (hcatAll content_list) else none
    generator := if 0 < content_list.length then some gw else none
    discriminator := dw
    result := List.replicate (num_user + num_item) (List.replicate dim_E 0) }

/-- `GARRec.feature_extractor`: the generator applied to the full
content feature bank, or `none` when generator or bank is absent.  The
generator network is `Linear, LeakyReLU, Linear`, so its forward pass is
exact rational arithmetic and needs no backend. -/
def GARRec.feature_extractor (m : GARRec) : Option QMat :=
  match m.generator, m.content_feat with
  | some g, some cf => some (genAll g cf)
  | _, _ => none

/-- `GARRec.forward` on 1-D id batches: gather both embedding batches
and form `user_emb @ item_emb.t()`, whose `(i, j)` entry is the dot
product of user row `i` with item row `j`. -/
def GARRec.forward (m : GARRec) (user_tensor item_tensor : List ℤ) : Option QMat :=
  (gather m.id_embedding user_tensor).bind fun user_emb =>
  (gather m.id_embedding item_tensor).bind fun item_emb =>
  some (user_emb.map (fun u => item_emb.map (fun v => dot u v)))

/-- The fake-item-embedding step of `GARRec.loss`: when generator and
content bank exist, index the generated embeddings by
`pos_item_ids - num_user`; otherwise fall back to the real positive
item embeddings. -/
def GARRec.fakeOf (m : GARRec) (pos_item_ids : List ℤ)
    (pos_item_emb : QMat) : Option QMat :=
  match m.generator, m.content_feat with
  | some g, some cf =>
      gather (genAll g cf) (pos_item_ids.map (fun i => i - (m.num_user : ℤ)))
  | _, _ => some pos_item_emb

/-- All intermediate values of one `GARRec.loss` call, named as the
local variables of the source. -/
structure LossParts where
  user_ids : List ℤ
  pos_item_ids : List ℤ
  user_emb : QMat
  pos_item_emb : QMat
  fake_item_emb : QMat
  real_pair : QMat
  fake_pair : QMat
  d_real : QMat
  d_fake : QMat
  loss_d_real : ℚ
  loss_d_fake : ℚ
  d_loss : ℚ
  g_loss : ℚ
  combined_loss : ℚ
  reg_loss : ℚ

/-- The body of `GARRec.loss`, line by line, exposing every
intermediate. -/
def GARRec.lossParts (b : Backend) (m : GARRec)
    (user_tensor item_tensor : List (List ℤ)) : Option LossParts :=
  (col0 user_tensor).bind fun user_ids =>
  (col0 item_tensor).bind fun pos_item_ids =>
  (gather m.id_embedding user_ids).bind fun user_emb =>
  (gather m.id_embedding pos_item_ids).bind fun pos_item_emb =>
  (m.fakeOf pos_item_ids pos_item_emb).bind fun fake_item_emb =>
  let real_pair := List.zipWith (fun r s => r ++ s) user_emb pos_item_emb
  let fake_pair := List.zipWith (fun r s => r ++ s) user_emb fake_item_emb
  let d_real := real_pair.map (discApply b m.discriminator)
  let d_fake := fake_pair.map (discApply b m.discriminator)
  let loss_d_real := bceMean b d_real 1
  let loss_d_fake := bceMean b d_fake 0
  let d_loss := loss_d_real + loss_d_fake
  let g_loss := bceMean b d_fake 1
  let combined_loss := m.contrastive * g_loss + (1 - m.contrastive) * d_loss
  let reg_loss := m.reg_weight * (tnorm b user_emb + tnorm b pos_item_emb) / 2
  some ⟨user_ids, pos_item_ids, user_emb, pos_item_emb, fake_item_emb, real_pair,
        fake_pair, d_real, d_fake, loss_d_real, loss_d_fake, d_loss, g_loss,
        combined_loss, reg_loss⟩

/-- `GARRec.loss`: returns `(combined_loss, reg_loss)`. -/
def GARRec.loss (b : Backend) (m : GARRec)
    (user_tensor item_tensor : List (List ℤ)) : Option (ℚ × ℚ) :=
  (m.lossParts b user_tensor item_tensor).map (fun p => (p.combined_loss, p.reg_loss))

/-! Concrete instances used to evaluate the theorems on explicit inputs. -/

/-- A concrete backend; the structural theorems hold for any backend. -/
def b0 : Backend := ⟨fun _ => 0, fun _ => 0, fun x => x⟩

/-- A backend whose `sqrt` is exact at 25 and at 0. -/
def b8 : Backend := ⟨fun _ => 0, fun _ => 0, fun x => if x = 25 then 5 else 0⟩

/-- Concrete generator weights (1-dimensional throughout). -/
def gw0 : GenW := ⟨[[1]], [0], [[1]], [0]⟩

/-- Concrete discriminator weights for `dim_E = 1`. -/
def dw0 : DiscW := ⟨[[1, 1]], [0], [[1]], [0]⟩

/-- Concrete discriminator weights for `dim_E = 4`. -/
def dw4 : DiscW := ⟨[[1, 1, 1, 1, 1, 1, 1, 1]], [0], [[1]], [0]⟩

/-- A model with a generator, `num_user = 2`, `num_item = 2`: item id 1
is positive and below `num_user`. -/
def mC5 : GARRec :=
  GARRec.init b0 [] [] 2 2 (1 / 10) 1 none none (some [[1], [1]]) 0 1 (1 / 2) 0
    [[1], [1], [1], [1]] gw0 dw0

/-- A model with a generator, `num_user = 3`, `num_item = 1`: item id 1
has local index -2, beyond even the wrap-around range. -/
def mC5b : GARRec :=
  GARRec.init b0 [] [] 3 1 (1 / 10) 1 none none (some [[1]]) 0 1 (1 / 2) 0
    [[1], [1], [1], [1]] gw0 dw0

/-- A generator-free model with one user and one item. -/
def mW : GARRec :=
  { num_user := 1
    num_item := 1
    reg_weight := 1 / 10
    dim_E := 1
    temp_value := 0
    num_neg := 1
    contrastive := 1 / 2
    num_sample := 0
    warm_item := []
    cold_item := []
    emb_id := [0]
    feat_id := []
    id_embedding := [[1], [1]]
    v_feat := none
    a_feat := none
    t_feat := none
    content_feat := none
    generator := none
    discriminator := dw0
    result := [[0], [0]] }

/-- The spec's end-to-end scenario: `num_user = 2`, `num_item = 2`,
`dim_E = 4`, no content features. -/
def mC6w : GARRec :=
  GARRec.init b0 [] [] 2 2 (1 / 10) 4 none none none 0 1 (1 / 2) 0
    (List.replicate 4 (List.replicate 4 1)) gw0 dw4

/-- A model built with a single text modality of two item rows. -/
def mC9w : GARRec :=
  GARRec.init b0 [] [] 1 2 (1 / 10) 1 none none (some [[1], [1]]) 0 1 (1 / 2) 0
    [[1], [1], [1]] gw0 dw0

/-- A model built with a visual modality holding one 3-4-5 row and one
zero row, under the backend `b8` whose `sqrt` is exact there. -/
def m8 : GARRec :=
  GARRec.init b8 [] [] 1 2 (1 / 10) 1 (some [[3, 4], [0, 0]]) none none 0 1 (1 / 2) 0
    [[1], [1], [1]] gw0 dw0

/-! Helper lemmas. -/

theorem tIndex_valid (m : QMat) (i : ℤ) (h : 0 ≤ i ∧ i < (m.length : ℤ)) :
    tIndex m i = some (m.getD i.toNat []) := by
  simp only [tIndex, if_pos h]

theorem gather_valid (m : QMat) (ids : List ℤ)
    (h : ∀ i ∈ ids, 0 ≤ i ∧ i < (m.length : ℤ)) :
    gather m ids = some (ids.map (fun i => m.getD i.toNat [])) := by
  induction ids with
  | nil => rfl
  | cons i rest ih =>
      have hrest := ih (fun j hj => h j (List.mem_cons_of_mem i hj))
      simp [gather, tIndex_valid m i (h i (List.mem_cons_self i rest)), hrest]

theorem gather_none_of_mem (m : QMat) (ids : List ℤ) (i : ℤ)
    (hi : i ∈ ids) (hn : tIndex m i = none) : gather m ids = none := by
  induction ids with
  | nil => cases hi
  | cons j rest ih =>
      rcases List.mem_cons.1 hi with h | h
      · subst h; simp [gather, hn]
      · cases hj : tIndex m j <;> simp [gather, hj, ih h]

theorem sumsq_map_div (r : QVec) (s : ℚ) :
    sumsq (r.map (fun x => x / s)) = sumsq r / (s * s) := by
  induction r with
  | nil => simp [sumsq]
  | cons x xs ih =>
      simp only [sumsq, List.map_cons, List.sum_cons] at ih ⊢
      rw [ih, div_mul_div_comm, div_add_div_same]

theorem lossParts_some (b : Backend) (m : GARRec) (ut it : List (List ℤ))
    (uids pids : List ℤ) (ue pe fe : QMat)
    (h1 : col0 ut = some uids) (h2 : col0 it = some pids)
    (h3 : gather m.id_embedding uids = some ue)
    (h4 : gather m.id_embedding pids = some pe)
    (hf : m.fakeOf pids pe = some fe) :
    m.lossParts b ut it = some
      { user_ids := uids
        pos_item_ids := pids
        user_emb := ue
        pos_item_emb := pe
        fake_item_emb := fe
        real_pair := List.zipWith (fun r s => r ++ s) ue pe
        fake_pair := List.zipWith (fun r s => r ++ s) ue fe
        d_real := (List.zipWith (fun r s => r ++ s) ue pe).map (discApply b m.discriminator)
        d_fake := (List.zipWith (fun r s => r ++ s) ue fe).map (discApply b m.discriminator)
        loss_d_real :=
          bceMean b ((List.zipWith (fun r s => r ++ s) ue pe).map (discApply b m.discriminator)) 1
        loss_d_fake :=
          bceMean b ((List.zipWith (fun r s => r ++ s) ue fe).map (discApply b m.discriminator)) 0
        d_loss :=
          bceMean b ((List.zipWith (fun r s => r ++ s) ue pe).map (discApply b m.discriminator)) 1
          + bceMean b ((List.zipWith (fun r s => r ++ s) ue fe).map (discApply b m.discriminator)) 0
        g_loss :=
          bceMean b ((List.zipWith (fun r s => r ++ s) ue fe).map (discApply b m.discriminator)) 1
        combined_loss :=
          m.contrastive
            * bceMean b ((List.zipWith (fun r s => r ++ s) ue fe).map (discApply b m.discriminator)) 1
          + (1 - m.contrastive)
            * (bceMean b ((List.zipWith (fun r s => r ++ s) ue pe).map (discApply b m.discriminator)) 1
              + bceMean b ((List.zipWith (fun r s => r ++ s) ue fe).map (discApply b m.discriminator)) 0)
        reg_loss := m.reg_weight * (tnorm b ue + tnorm b pe) / 2 } := by
  simp only [GARRec.lossParts, h1, h2, h3, h4, hf, Option.some_bind]

/-! Claim theorems. -/

/-- C1: in `GARRec.loss`, the discriminator loss is
`BCE(d_real, 1) + BCE(d_fake, 0)` and the generator loss is
`BCE(d_fake, 1)`, where `d_real` and `d_fake` are the discriminator's
outputs on the concatenated `(user_emb, pos_item_emb)` and
`(user_emb, fake_item_emb)` pairs, for every batch of valid ids (ids on
which the column extraction and embedding gathers succeed). -/
theorem claim_c1 (b : Backend) (m : GARRec) (ut it : List (List ℤ))
    (uids pids : List ℤ) (ue pe fe : QMat)
    (h1 : col0 ut = some uids) (h2 : col0 it = some pids)
    (h3 : gather m.id_embedding uids = some ue)
    (h4 : gather m.id_embedding pids = some pe)
    (hf : m.fakeOf pids pe = some fe) :
    ∃ p : LossParts, m.lossParts b ut it = some p
      ∧ p.user_emb = ue ∧ p.pos_item_emb = pe ∧ p.fake_item_emb = fe
      ∧ p.d_real = (List.zipWith (fun r s => r ++ s) ue pe).map (discApply b m.discriminator)
      ∧ p.d_fake = (List.zipWith (fun r s => r ++ s) ue fe).map (discApply b m.discriminator)
      ∧ p.d_loss = bceMean b p.d_real 1 + bceMean b p.d_fake 0
      ∧ p.g_loss = bceMean b p.d_fake 1 :=
  ⟨_, lossParts_some b m ut it uids pids ue pe fe h1 h2 h3 h4 hf,
    rfl, rfl, rfl, rfl, rfl, rfl, rfl⟩

/-- Witness for C1 at a concrete generator-free model and batch. -/
theorem claim_c1_witness :
    ∃ p : LossParts, GARRec.lossParts b0 mW [[0]] [[1]] = some p
      ∧ p.user_emb = [[1]] ∧ p.pos_item_emb = [[1]] ∧ p.fake_item_emb = [[1]]
      ∧ p.d_real = (List.zipWith (fun r s => r ++ s) [[1]] [[1]]).map (discApply b0 mW.discriminator)
      ∧ p.d_fake = (List.zipWith (fun r s => r ++ s) [[1]] [[1]]).map (discApply b0 mW.discriminator)
      ∧ p.d_loss = bceMean b0 p.d_real 1 + bceMean b0 p.d_fake 0
      ∧ p.g_loss = bceMean b0 p.d_fake 1 :=
  claim_c1 b0 mW [[0]] [[1]] [0] [1] [[1]] [[1]] [[1]]
    (by decide) (by decide) (by decide) (by decide) (by decide)

/-- C2: the combined adversarial loss equals
`contrastive * g_loss + (1 - contrastive) * d_loss`; at
`contrastive = 0` it is exactly the discriminator loss, at
`contrastive = 1` exactly the generator loss. -/
theorem claim_c2 (b : Backend) (m : GARRec) (ut it : List (List ℤ))
    (uids pids : List ℤ) (ue pe fe : QMat)
    (h1 : col0 ut = some uids) (h2 : col0 it = some pids)
    (h3 : gather m.id_embedding uids = some ue)
    (h4 : gather m.id_embedding pids = some pe)
    (hf : m.fakeOf pids pe = some fe) :
    ∃ p : LossParts, m.lossParts b ut it = some p
      ∧ GARRec.loss b m ut it = some (p.combined_loss, p.reg_loss)
      ∧ p.combined_loss = m.contrastive * p.g_loss + (1 - m.contrastive) * p.d_loss
      ∧ (m.contrastive = 0 → p.combined_loss = p.d_loss)
      ∧ (m.contrastive = 1 → p.combined_loss = p.g_loss) := by
  have key := lossParts_some b m ut it uids pids ue pe fe h1 h2 h3 h4 hf
  refine ⟨_, key, ?_, rfl, ?_, ?_⟩
  · simp only [GARRec.loss, key, Option.map_some']
  · intro hc
    show m.contrastive * _ + (1 - m.contrastive) * _ = _
    rw [hc]; ring
  · intro hc
    show m.contrastive * _ + (1 - m.contrastive) * _ = _
    rw [hc]; ring

/-- Witness for C2 at a concrete model and batch. -/
theorem claim_c2_witness :
    ∃ p : LossParts, GARRec.lossParts b0 mW [[0]] [[1]] = some p
      ∧ GARRec.loss b0 mW [[0]] [[1]] = some (p.combined_loss, p.reg_loss)
      ∧ p.combined_loss = mW.contrastive * p.g_loss + (1 - mW.contrastive) * p.d_loss
      ∧ (mW.contrastive = 0 → p.combined_loss = p.d_loss)
      ∧ (mW.contrastive = 1 → p.combined_loss = p.g_loss) :=
  claim_c2 b0 mW [[0]] [[1]] [0] [1] [[1]] [[1]] [[1]]
    (by decide) (by decide) (by decide) (by decide) (by decide)

/-- C4: the regularization loss is
`reg_weight * (norm(user_emb) + norm(pos_item_emb)) / 2` with the norm
taken over the entire batch matrix (`tnorm` is the aggregate
whole-matrix norm), and it is linear in `reg_weight`: doubling
`reg_weight` exactly doubles it. -/
theorem claim_c4 (b : Backend) (m : GARRec) (ut it : List (List ℤ))
    (uids pids : List ℤ) (ue pe fe : QMat)
    (h1 : col0 ut = some uids) (h2 : col0 it = some pids)
    (h3 : gather m.id_embedding uids = some ue)
    (h4 : gather m.id_embedding pids = some pe)
    (hf : m.fakeOf pids pe = some fe) :
    ∃ p p2 : LossParts, m.lossParts b ut it = some p
      ∧ ({ m with reg_weight := 2 * m.reg_weight } : GARRec).lossParts b ut it = some p2
      ∧ p.reg_loss = m.reg_weight * (tnorm b ue + tnorm b pe) / 2
      ∧ p2.reg_loss = 2 * p.reg_loss := by
  refine ⟨_, _, lossParts_some b m ut it uids pids ue pe fe h1 h2 h3 h4 hf,
    lossParts_some b { m with reg_weight := 2 * m.reg_weight } ut it uids pids ue pe fe
      h1 h2 h3 h4 hf, rfl, ?_⟩
  show 2 * m.reg_weight * (tnorm b ue + tnorm b pe) / 2
      = 2 * (m.reg_weight * (tnorm b ue + tnorm b pe) / 2)
  ring

/-- Witness for C4 at a concrete model and batch. -/
theorem claim_c4_witness :
    ∃ p p2 : LossParts, GARRec.lossParts b0 mW [[0]] [[1]] = some p
      ∧ ({ mW with reg_weight := 2 * mW.reg_weight } : GARRec).lossParts b0 [[0]] [[1]] = some p2
      ∧ p.reg_loss = mW.reg_weight * (tnorm b0 [[1]] + tnorm b0 [[1]]) / 2
      ∧ p2.reg_loss = 2 * p.reg_loss :=
  claim_c4 b0 mW [[0]] [[1]] [0] [1] [[1]] [[1]] [[1]]
    (by decide) (by decide) (by decide) (by decide) (by decide)

/-- C7: `GARRec.loss` reads only column 0 of its two input tensors: two
calls whose inputs agree on column 0 (`col0`) return identical losses,
whatever the remaining (negative-sample) columns hold. -/
theorem claim_c7 (b : Backend) (m : GARRec) (ut1 it1 ut2 it2 : List (List ℤ))
    (hu : col0 ut1 = col0 ut2) (hi : col0 it1 = col0 it2) :
    GARRec.loss b m ut1 it1 = GARRec.loss b m ut2 it2 := by
  simp only [GARRec.loss, GARRec.lossParts, hu, hi]

/-- Witness for C7: batches differing only beyond column 0. -/
theorem claim_c7_witness :
    GARRec.loss b0 mW [[0, 5]] [[1, 9]] = GARRec.loss b0 mW [[0, 7]] [[1, -3]] :=
  claim_c7 b0 mW [[0, 5]] [[1, 9]] [[0, 7]] [[1, -3]] (by decide) (by decide)

/-- C10: the warm/cold item partitions supplied at construction never
influence `forward` or `loss`: two models constructed with the same
backend, sizes, weights and features but arbitrary different warm/cold
partitions return identical results on every input. -/
theorem claim_c10 (b : Backend) (w1 c1 w2 c2 : List ℕ) (nu ni : ℕ)
    (rweight : ℚ) (dimE : ℕ) (vf af tf : Option QMat) (tv : ℚ) (nneg : ℕ)
    (contr : ℚ) (nsamp : ℕ) (table : QMat) (gw : GenW) (dw : DiscW) :
    (∀ U I : List ℤ,
        (GARRec.init b w1 c1 nu ni rweight dimE vf af tf tv nneg contr nsamp table gw dw).forward U I
        = (GARRec.init b w2 c2 nu ni rweight dimE vf af tf tv nneg contr nsamp table gw dw).forward U I)
    ∧ (∀ ut it : List (List ℤ),
        GARRec.loss b (GARRec.init b w1 c1 nu ni rweight dimE vf af tf tv nneg contr nsamp table gw dw) ut it
        = GARRec.loss b (GARRec.init b w2 c2 nu ni rweight dimE vf af tf tv nneg contr nsamp table gw dw) ut it) :=
  ⟨fun _ _ => rfl, fun _ _ => rfl⟩

/-- C3: for 1-D batches of valid user ids and valid item ids,
`GARRec.forward` returns the `(|U|, |I|)` matrix whose `(i, j)` entry is
the dot product of the embedding-table row for `U[i]` with the row for
`I[j]` (an outer product of the two embedding batches). -/
theorem claim_c3 (m : GARRec) (U I : List ℤ)
    (hlen : m.id_embedding.length = m.num_user + m.num_item)
    (hU : ∀ u ∈ U, 0 ≤ u ∧ u < (m.num_user : ℤ))
    (hI : ∀ i ∈ I, (m.num_user : ℤ) ≤ i ∧ i < (m.num_user : ℤ) + (m.num_item : ℤ)) :
    ∃ S : QMat, m.forward U I = some S
      ∧ S.length = U.length
      ∧ (∀ row ∈ S, row.length = I.length)
      ∧ S = U.map (fun u => I.map (fun i =>
          dot (m.id_embedding.getD u.toNat []) (m.id_embedding.getD i.toNat []))) := by
  have hU2 : ∀ u ∈ U, 0 ≤ u ∧ u < (m.id_embedding.length : ℤ) := by
    intro u hu
    obtain ⟨ha, hb⟩ := hU u hu
    refine ⟨ha, ?_⟩
    rw [hlen]
    push_cast
    omega
  have hI2 : ∀ i ∈ I, 0 ≤ i ∧ i < (m.id_embedding.length : ℤ) := by
    intro i hi
    obtain ⟨ha, hb⟩ := hI i hi
    have hnu : (0 : ℤ) ≤ (m.num_user : ℤ) := Int.natCast_nonneg _
    refine ⟨le_trans hnu ha, ?_⟩
    rw [hlen]
    push_cast
    omega
  have gU := gather_valid m.id_embedding U hU2
  have gI := gather_valid m.id_embedding I hI2
  refine ⟨U.map (fun u => I.map (fun i =>
      dot (m.id_embedding.getD u.toNat []) (m.id_embedding.getD i.toNat []))),
    ?_, by simp, ?_, rfl⟩
  · simp [GARRec.forward, gU, gI, Option.some_bind, List.map_map, Function.comp]
  · intro row hrow
    obtain ⟨u, hu, rfl⟩ := List.mem_map.1 hrow
    simp

/-- Witness for C3 at a concrete model and id batches. -/
theorem claim_c3_witness :
    ∃ S : QMat, mW.forward [0] [1] = some S
      ∧ S.length = 1 ∧ (∀ row ∈ S, row.length = 1)
      ∧ S = [(0 : ℤ)].map (fun u => [(1 : ℤ)].map (fun i =>
          dot (mW.id_embedding.getD u.toNat []) (mW.id_embedding.getD i.toNat []))) := by
  obtain ⟨S, h1, h2, h3, h4⟩ :=
    claim_c3 mW [0] [1] (by decide) (by decide) (by decide)
  exact ⟨S, h1, by rw [h2]; rfl, h3, h4⟩

/-- Counterexample to C5 as stated: in `mC5` the generator path is taken
(`generator` is present), the positive item id 1 is positive and below
`num_user = 2`, yet `GARRec.loss` returns a result instead of failing —
the negative local index `1 - 2 = -1` wraps around to the last row of
the generated embeddings, as tensor indexing wraps negative indices in
`[-len, 0)`. -/
theorem claim_c5_counterexample :
    mC5.generator.isSome = true
    ∧ mC5.num_user = 2
    ∧ (GARRec.loss b0 mC5 [[0]] [[1]]).isSome = true := by
  decide

/-- Row-gather over the full wrap range: every index in `[-len, len)`
succeeds, a nonnegative index fetching its own row and a negative one
the row `len` further along. -/
theorem gather_wrap (m : QMat) (ids : List ℤ)
    (h : ∀ i ∈ ids, -(m.length : ℤ) ≤ i ∧ i < (m.length : ℤ)) :
    gather m ids = some (ids.map (fun i =>
      m.getD (if 0 ≤ i then i.toNat else (i + (m.length : ℤ)).toNat) [])) := by
  induction ids with
  | nil => rfl
  | cons i rest ih =>
      have hi := h i (List.mem_cons_self i rest)
      have hrest := ih (fun j hj => h j (List.mem_cons_of_mem i hj))
      have hti : tIndex m i
          = some (m.getD (if 0 ≤ i then i.toNat else (i + (m.length : ℤ)).toNat) []) := by
        by_cases hc : 0 ≤ i
        · simp only [tIndex]
          rw [if_pos ⟨hc, hi.2⟩, if_pos hc]
        · simp only [tIndex]
          rw [if_neg (fun hh => hc hh.1), if_pos ⟨hi.1, by omega⟩, if_neg hc]
      simp [gather, hti, hrest]

/-- C5 amended: with the generator path taken (and the content bank of
`num_item` rows), a positive item id below `num_user` is a fatal
indexing error exactly when it lies below `num_user - num_item`; the
first conjunct proves that half.  Ids in `[num_user - num_item,
num_user)` instead wrap around silently: the second conjunct proves
that whenever every positive item id lies in
`[num_user - num_item, num_user + num_item)` the computation returns a
result, whose fake embedding row for an id below `num_user` is row
`num_item + (id - num_user)` of the generated embeddings (the `else`
branch) and for an id at or above `num_user` is row `id - num_user`. -/
theorem claim_c5_amended (b : Backend) (m : GARRec) (ut it : List (List ℤ))
    (uids pids : List ℤ) (ue pe : QMat) (g : GenW) (cf : QMat)
    (h1 : col0 ut = some uids) (h2 : col0 it = some pids)
    (h3 : gather m.id_embedding uids = some ue)
    (h4 : gather m.id_embedding pids = some pe)
    (hg : m.generator = some g) (hcf : m.content_feat = some cf)
    (hclen : cf.length = m.num_item) :
    (∀ i ∈ pids, 0 ≤ i → i < (m.num_user : ℤ) - (m.num_item : ℤ) →
        GARRec.loss b m ut it = none)
    ∧ ((∀ i ∈ pids, (m.num_user : ℤ) - (m.num_item : ℤ) ≤ i
          ∧ i < (m.num_user : ℤ) + (m.num_item : ℤ)) →
        ∃ p : LossParts, m.lossParts b ut it = some p
          ∧ GARRec.loss b m ut it = some (p.combined_loss, p.reg_loss)
          ∧ p.fake_item_emb = pids.map (fun i =>
              (genAll g cf).getD
                (if (m.num_user : ℤ) ≤ i then (i - (m.num_user : ℤ)).toNat
                 else (i - (m.num_user : ℤ) + (m.num_item : ℤ)).toNat) [])) := by
  have hlen2 : ((genAll g cf).length : ℤ) = (m.num_item : ℤ) := by
    simp [genAll, hclen]
  constructor
  · intro i hi _h0 hsmall
    have hidx : tIndex (genAll g cf) (i - (m.num_user : ℤ)) = none := by
      simp only [tIndex, hlen2]
      rw [if_neg (by omega), if_neg (by omega)]
    have hfake : m.fakeOf pids pe = none := by
      simp only [GARRec.fakeOf, hg, hcf]
      exact gather_none_of_mem _ _ _
        (List.mem_map_of_mem (fun j => j - (m.num_user : ℤ)) hi) hidx
    simp only [GARRec.loss, GARRec.lossParts, h1, h2, h3, h4, hfake,
      Option.some_bind, Option.none_bind, Option.map_none']
  · intro hall
    have hbound : ∀ j ∈ pids.map (fun i => i - (m.num_user : ℤ)),
        -((genAll g cf).length : ℤ) ≤ j ∧ j < ((genAll g cf).length : ℤ) := by
      intro j hj
      obtain ⟨i, hi, rfl⟩ := List.mem_map.1 hj
      have hri := hall i hi
      omega
    have hw := gather_wrap (genAll g cf) (pids.map (fun i => i - (m.num_user : ℤ))) hbound
    have hmap : (pids.map (fun i => i - (m.num_user : ℤ))).map
          (fun j => (genAll g cf).getD
            (if 0 ≤ j then j.toNat else (j + ((genAll g cf).length : ℤ)).toNat) [])
        = pids.map (fun i => (genAll g cf).getD
            (if (m.num_user : ℤ) ≤ i then (i - (m.num_user : ℤ)).toNat
             else (i - (m.num_user : ℤ) + (m.num_item : ℤ)).toNat) []) := by
      rw [List.map_map]
      refine List.map_congr_left ?_
      intro i hi
      simp only [Function.comp]
      by_cases hc : (m.num_user : ℤ) ≤ i
      · rw [if_pos (by omega), if_pos hc]
      · rw [if_neg (by omega), if_neg hc]
        congr 1
        omega
    have hfake : m.fakeOf pids pe
        = some (pids.map (fun i => (genAll g cf).getD
            (if (m.num_user : ℤ) ≤ i then (i - (m.num_user : ℤ)).toNat
             else (i - (m.num_user : ℤ) + (m.num_item : ℤ)).toNat) [])) := by
      simp only [GARRec.fakeOf, hg, hcf]
      rw [hw, hmap]
    have key := lossParts_some b m ut it uids pids ue pe _ h1 h2 h3 h4 hfake
    exact ⟨_, key, by simp only [GARRec.loss, key, Option.map_some'], rfl⟩

/-- Witness for the amended C5, exercising both halves: in `mC5`
(`num_user = 2`, `num_item = 2`) the positive item id 1 lies in the
wrap range `[0, 4)`, the loss returns a result, and the fake embedding
is the wrapped row `2 + (1 - 2) = 1` of the generated embeddings; in
`mC5b` (`num_user = 3`, `num_item = 1`) the positive item id 1 has
local index -2, below `-num_item`, and the loss computation fails. -/
theorem claim_c5_amended_witness :
    (∃ p : LossParts, mC5.lossParts b0 [[0]] [[1]] = some p
        ∧ GARRec.loss b0 mC5 [[0]] [[1]] = some (p.combined_loss, p.reg_loss)
        ∧ p.fake_item_emb = [(genAll gw0 [[1], [1]]).getD 1 []])
    ∧ GARRec.loss b0 mC5b [[0]] [[1]] = none := by
  obtain ⟨-, hwrap⟩ :=
    claim_c5_amended b0 mC5 [[0]] [[1]] [0] [1] [[1]] [[1]] gw0 [[1], [1]]
      (by decide) (by decide) (by decide) (by decide)
      (by with_unfolding_all decide) (by with_unfolding_all decide)
      (by with_unfolding_all decide)
  obtain ⟨p, hp, hl, hfe⟩ := hwrap (by decide)
  refine ⟨⟨p, hp, hl, ?_⟩, ?_⟩
  · rw [hfe]
    with_unfolding_all decide
  · exact (claim_c5_amended b0 mC5b [[0]] [[1]] [0] [1] [[1]] [[1]] gw0 [[1]]
      (by decide) (by decide) (by decide) (by decide)
      (by with_unfolding_all decide) (by with_unfolding_all decide)
      (by with_unfolding_all decide)).1 1 (by decide) (by decide) (by decide)

theorem qmax_eq_left {a c : ℚ} (h : c ≤ a) : qmax a c = a := by
  unfold qmax
  by_cases h2 : a ≤ c
  · rw [if_pos h2]; exact (le_antisymm h2 h).symm
  · rw [if_neg h2]

theorem qmax_eq_right {a c : ℚ} (h : a ≤ c) : qmax a c = c := by
  unfold qmax
  rw [if_pos h]

/-- C6: constructed without any content modality, the model has no
generator and no content feature bank, and the loss computation does not
fail on any batch of valid ids: the fake item embedding equals the real
positive-item embedding and the returned combined loss exists (in this
exact-arithmetic model every returned rational is finite). -/
theorem claim_c6 (b : Backend) (warm cold : List ℕ) (nu ni : ℕ) (rweight : ℚ)
    (dimE : ℕ) (tv : ℚ) (nneg : ℕ) (contr : ℚ) (nsamp : ℕ)
    (table : QMat) (gw : GenW) (dw : DiscW) (m : GARRec)
    (hm : m = GARRec.init b warm cold nu ni rweight dimE none none none tv nneg
      contr nsamp table gw dw)
    (ut it : List (List ℤ)) (uids pids : List ℤ) (ue pe : QMat)
    (h1 : col0 ut = some uids) (h2 : col0 it = some pids)
    (h3 : gather m.id_embedding uids = some ue)
    (h4 : gather m.id_embedding pids = some pe) :
    m.generator = none ∧ m.content_feat = none
      ∧ ∃ p : LossParts, m.lossParts b ut it = some p
          ∧ p.fake_item_emb = p.pos_item_emb
          ∧ GARRec.loss b m ut it = some (p.combined_loss, p.reg_loss) := by
  have hgen : m.generator = none := by rw [hm]; rfl
  have hcf : m.content_feat = none := by rw [hm]; rfl
  have hfake : m.fakeOf pids pe = some pe := by
    simp only [GARRec.fakeOf, hgen, hcf]
  have key := lossParts_some b m ut it uids pids ue pe pe h1 h2 h3 h4 hfake
  refine ⟨hgen, hcf, _, key, rfl, ?_⟩
  simp only [GARRec.loss, key, Option.map_some']

/-- Witness for C6: the spec's end-to-end scenario with `num_user = 2`,
`num_item = 2`, `dim_E = 4` and no content features. -/
theorem claim_c6_witness :
    mC6w.generator = none ∧ mC6w.content_feat = none
      ∧ ∃ p : LossParts, mC6w.lossParts b0 [[0, 1], [1, 0]] [[2, 3], [3, 2]] = some p
          ∧ p.fake_item_emb = p.pos_item_emb
          ∧ GARRec.loss b0 mC6w [[0, 1], [1, 0]] [[2, 3], [3, 2]]
              = some (p.combined_loss, p.reg_loss) :=
  claim_c6 b0 [] [] 2 2 (1 / 10) 4 0 1 (1 / 2) 0
    (List.replicate 4 (List.replicate 4 1)) gw0 dw4 mC6w rfl
    [[0, 1], [1, 0]] [[2, 3], [3, 2]] [0, 1] [2, 3]
    [[1, 1, 1, 1], [1, 1, 1, 1]] [[1, 1, 1, 1], [1, 1, 1, 1]]
    (by decide) (by decide) (by decide) (by decide)

/-- C8: at construction every supplied modality is stored row-wise
L2-normalized, and the content bank is their concatenation along the
feature axis; on any row where the backend's `sqrt` is an exact square
root at least `eps`, the normalized row has squared L2 norm exactly 1
(equivalently, L2 norm 1), and an all-zero row is left unchanged. -/
theorem claim_c8 (b : Backend) (warm cold : List ℕ) (nu ni : ℕ) (rweight : ℚ)
    (dimE : ℕ) (vf af tf : Option QMat) (tv : ℚ) (nneg : ℕ) (contr : ℚ)
    (nsamp : ℕ) (table : QMat) (gw : GenW) (dw : DiscW) (m : GARRec)
    (hm : m = GARRec.init b warm cold nu ni rweight dimE vf af tf tv nneg
      contr nsamp table gw dw) :
    (m.v_feat = vf.map (normalizeMat b)
      ∧ m.a_feat = af.map (normalizeMat b)
      ∧ m.t_feat = tf.map (normalizeMat b))
    ∧ m.content_feat =
        (if 0 < ((vf.map (normalizeMat b)).toList ++ (af.map (normalizeMat b)).toList
              ++ (tf.map (normalizeMat b)).toList).length
         then some (hcatAll ((vf.map (normalizeMat b)).toList
              ++ (af.map (normalizeMat b)).toList ++ (tf.map (normalizeMat b)).toList))
         else none)
    ∧ (∀ r : QVec, b.sqrt (sumsq r) * b.sqrt (sumsq r) = sumsq r →
        feps ≤ b.sqrt (sumsq r) → sumsq (normalizeRow b r) = 1)
    ∧ (∀ r : QVec, b.sqrt 0 = 0 → (∀ x ∈ r, x = 0) → normalizeRow b r = r) := by
  subst hm
  refine ⟨⟨rfl, rfl, rfl⟩, rfl, ?_, ?_⟩
  · intro r hsq hge
    have h0 : (0 : ℚ) < feps := by norm_num [feps]
    have hpos : (0 : ℚ) < b.sqrt (sumsq r) := lt_of_lt_of_le h0 hge
    have hM : qmax (b.sqrt (sumsq r)) feps = b.sqrt (sumsq r) := qmax_eq_left hge
    have hne : sumsq r ≠ 0 := by rw [← hsq]; exact (mul_pos hpos hpos).ne'
    simp only [normalizeRow, hM, sumsq_map_div, hsq]
    exact div_self hne
  · intro r hsqrt0 hz
    have hs : sumsq r = 0 := by
      unfold sumsq
      refine List.sum_eq_zero ?_
      intro y hy
      obtain ⟨x, hx, rfl⟩ := List.mem_map.1 hy
      rw [hz x hx]; ring
    have hq : qmax (b.sqrt (sumsq r)) feps = feps := by
      rw [hs, hsqrt0]
      exact qmax_eq_right (by norm_num [feps])
    simp only [normalizeRow, hq]
    refine (List.map_congr_left ?_).trans (List.map_id r)
    intro x hx
    rw [hz x hx]
    simp

/-- Witness for C8: a 3-4-5 row normalizes to squared norm 1 and a zero
row stays zero, inside the constructed model `m8`. -/
theorem claim_c8_witness :
    m8.v_feat = some (normalizeMat b8 [[3, 4], [0, 0]])
      ∧ sumsq (normalizeRow b8 [3, 4]) = 1
      ∧ normalizeRow b8 [0, 0] = [0, 0] := by
  obtain ⟨⟨hv, -, -⟩, -, hnorm, hzero⟩ :=
    claim_c8 b8 [] [] 1 2 (1 / 10) 1 (some [[3, 4], [0, 0]]) none none 0 1 (1 / 2) 0
      [[1], [1], [1]] gw0 dw0 m8 rfl
  exact ⟨hv,
    hnorm [3, 4] (by with_unfolding_all decide) (by with_unfolding_all decide),
    hzero [0, 0] (by with_unfolding_all decide) (by decide)⟩

/-- C9: with at least one content modality supplied, the feature
extractor returns the generator network applied to the full content
bank, a matrix with `num_item` rows of `dim_E` entries; with no modality
supplied it returns nothing. -/
theorem claim_c9 (b : Backend) (warm cold : List ℕ) (nu ni : ℕ) (rweight : ℚ)
    (dimE : ℕ) (vf af tf : Option QMat) (tv : ℚ) (nneg : ℕ) (contr : ℚ)
    (nsamp : ℕ) (table : QMat) (gw : GenW) (dw : DiscW) (CF : QMat)
    (hcf : (GARRec.init b warm cold nu ni rweight dimE vf af tf tv nneg contr nsamp
        table gw dw).content_feat = some CF)
    (hgen : (GARRec.init b warm cold nu ni rweight dimE vf af tf tv nneg contr nsamp
        table gw dw).generator = some gw)
    (hCF : CF.length = ni) (hW2 : gw.W2.length = dimE) (hb2 : gw.b2.length = dimE) :
    (GARRec.init b warm cold nu ni rweight dimE none none none tv nneg contr nsamp
        table gw dw).feature_extractor = none
    ∧ (GARRec.init b warm cold nu ni rweight dimE vf af tf tv nneg contr nsamp
        table gw dw).feature_extractor = some (genAll gw CF)
    ∧ (genAll gw CF).length = ni
    ∧ ∀ row ∈ genAll gw CF, row.length = dimE := by
  refine ⟨rfl, ?_, ?_, ?_⟩
  · simp only [GARRec.feature_extractor, hgen, hcf]
  · simp only [genAll, List.length_map, hCF]
  · intro row hrow
    obtain ⟨x, hx, rfl⟩ := List.mem_map.1 hrow
    simp [genApply, linear, List.length_zipWith, hW2, hb2]

/-- Witness for C9: a single text modality with two item rows yields a
(2, 1) synthetic embedding matrix; the all-none construction yields
nothing. -/
theorem claim_c9_witness :
    (GARRec.init b0 [] [] 1 2 (1 / 10) 1 none none none 0 1 (1 / 2) 0
        [[1], [1], [1]] gw0 dw0).feature_extractor = none
    ∧ mC9w.feature_extractor = some (genAll gw0 [[1], [1]])
    ∧ (genAll gw0 [[1], [1]]).length = 2
    ∧ ∀ row ∈ genAll gw0 [[1], [1]], row.length = 1 :=
  claim_c9 b0 [] [] 1 2 (1 / 10) 1 none none (some [[1], [1]]) 0 1 (1 / 2) 0
    [[1], [1], [1]] gw0 dw0 [[1], [1]]
    (by with_unfolding_all decide) (by with_unfolding_all decide)
    (by decide) (by decide) (by decide)
